import Mathlib

/-!
Shallow embedding of the GraphRAG hybrid-retrieval engine
(entity extraction, graph linking, hybrid retrieval, prompt/citation
assembly, query orchestration) from the JavaScript sources:
`src/extraction/entityExtractor.js`, `src/database/neo4jClient.js`,
`src/database/mongodbClient.js`, `src/retrieval/hybridRetrieval.js`,
the prompt builder / citation module and the query orchestrator
(`queryGraphRAG`).

External collaborators (the MongoDB chunk store, Neo4j, Ollama) appear at
their interface boundaries: the chunk store is a list of chunk documents in
collection order, the knowledge graph records the upserts issued to it, and
generation calls are oracles mapping the input text to an outcome.
JavaScript `undefined`-able string fields are `Option String`; JS truthiness
on such fields is `truthyS` (both `undefined` and the empty string are
falsy).
-/

/-- JS truthiness of a possibly-undefined string field:
`undefined` and `""` are falsy, every other string is truthy. -/
def truthyS : Option String → Bool
  | none => false
  | some s => !s.isEmpty

/-- An extracted entity, as produced by parsing the model's JSON output:
`{name, type}`, either field possibly absent. -/
structure JEntity where
  name : Option String
  type : Option String
deriving DecidableEq, Repr

/-- An extracted relationship `{from, from_type, type, to, to_type}`,
any field possibly absent (`from` and `to` are Lean keywords, hence the
trailing underscores). -/
structure JRel where
  from_ : Option String
  from_type : Option String
  type : Option String
  to_ : Option String
  to_type : Option String
deriving DecidableEq, Repr

/-- The extraction value returned by `extractEntitiesAndRelationships`:
`{entities, relationships}` plus the `error` diagnostic attached on
failure paths. -/
structure Extraction where
  entities : List JEntity
  relationships : List JRel
  error : Option String
deriving DecidableEq, Repr

/-- A JSON array-valued field of the parsed generation output: absent,
present but not an array, or an array of records. -/
inductive JArrField (α : Type) where
  | absent
  | notArray
  | arr (xs : List α)
deriving DecidableEq, Repr

/-- The parsed shape of the generation call's raw content string:
`JSON.parse` either fails, yields a non-object value (on which the
strict-mode field assignments of the validator throw), or yields an
object with possibly-missing `entities` / `relationships` fields. -/
inductive RawJson where
  | unparseable (diag : String)
  | nonObject
  | obj (entities : JArrField JEntity) (relationships : JArrField JRel)
deriving DecidableEq, Repr

/-- Outcome of the raced generation call in
`extractEntitiesAndRelationships`: either the timeout promise rejects
first, or the model responds with content whose parse shape is recorded. -/
inductive GenOutcome where
  | timeout
  | response (content : RawJson)
deriving DecidableEq, Repr

/-- Coerce a JSON field to a sequence exactly as the validator does:
`if (!x || !Array.isArray(x)) x = []`. -/
def coerceArr {α : Type} : JArrField α → List α
  | .arr xs => xs
  | _ => []

/-- Embedding of `extractEntitiesAndRelationships` from `entityExtractor.js`, with the
generation backend abstracted as an oracle `gen` from the input text to the
outcome of the raced call.  Every failure (timeout rejection, JSON parse
error, strict-mode TypeError on a non-object parse) is caught and turned
into an empty extraction carrying the error message. -/
def extractEntitiesAndRelationships (gen : String → GenOutcome) (text : String) : Extraction :=
  match gen text with
  | .timeout => ⟨[], [], some "Extraction timeout"⟩
  | .response (.unparseable diag) => ⟨[], [], some diag⟩
  | .response .nonObject => ⟨[], [], some "TypeError: cannot create property on non-object"⟩
  | .response (.obj ents rels) => ⟨coerceArr ents, coerceArr rels, none⟩

/-- A chunk document as stored in the MongoDB collection and returned by
vector search / id lookup.  The semantic score and the embedding vector are
carried by the store but never inspected by the logic under proof, so they
are omitted; `extraction` is the metadata field read by method 1 of
`extractEntityNamesFromChunks`. -/
structure Chunk where
  chunk_id : String
  doc_id : String
  source_title : String
  text : String
  page_number : Option Nat
  extraction : Option Extraction
deriving DecidableEq, Repr

/-- Embedding of `extractFromChunks` from `entityExtractor.js`: the batch loop pairs
every chunk, in input order, with the extraction obtained for its text.
`extractEntitiesAndRelationships` is total (it catches its own faults), so
the loop's outer catch never fires and every chunk is processed. -/
def extractFromChunks (gen : String → GenOutcome) : List Chunk → List (Chunk × Extraction)
  | [] => []
  | c :: rest =>
    (c, extractEntitiesAndRelationships gen c.text) :: extractFromChunks gen rest

/-- The fixed entity type set of the extraction prompt and of
`validateExtraction`. -/
def entityTypeSet : List String := ["Person", "Company", "Product", "Field"]

/-- Entity check of `validateExtraction`: a name, a type, and the type in
the fixed set (`['Person','Company','Product','Field'].includes`). -/
def validEntity (e : JEntity) : Bool :=
  truthyS e.name && truthyS e.type &&
    (match e.type with
     | some t => entityTypeSet.contains t
     | none => false)

/-- Relationship check of `validateExtraction`: both endpoints, a label,
and both endpoint types must be truthy. -/
def validRel (r : JRel) : Bool :=
  truthyS r.from_ && truthyS r.to_ && truthyS r.type &&
    truthyS r.from_type && truthyS r.to_type

/-- Embedding of `validateExtraction` from `entityExtractor.js` (the §4.1 validation):
in the typed embedding the object/array-shape checks always pass, and the
two early-return loops are `List.all`. -/
def validateExtraction (ext : Extraction) : Bool :=
  ext.entities.all validEntity && ext.relationships.all validRel

/-- Provenance attached by `storeExtraction` to every upsert:
`{chunk_id, doc_id, extracted_at}`.  The wall-clock `extracted_at`
timestamp is an opaque string irrelevant to every property proved here and
is omitted. -/
structure Prov where
  chunk_id : String
  doc_id : String
deriving DecidableEq, Repr

/-- A node of the knowledge-graph store, identified by (label, name); the
`prov` field holds the provenance properties last written by a
`SET n += $properties` (none for endpoint nodes merged bare by
`createRelationship`). -/
structure GraphNode where
  label : String
  name : Option String
  prov : Option Prov
deriving DecidableEq, Repr

/-- An edge of the knowledge-graph store, identified by the
(from-node, relationship-type, to-node) triple of the `MERGE` pattern. -/
structure GraphEdge where
  fromLabel : String
  fromName : Option String
  relType : String
  toLabel : String
  toName : Option String
  prov : Option Prov
deriving DecidableEq, Repr

/-- The knowledge-graph store, as the record of upserts issued to it. -/
structure KGraph where
  nodes : List GraphNode
  edges : List GraphEdge
deriving DecidableEq, Repr

def kgEmpty : KGraph := ⟨[], []⟩

/-- Identity-key comparison of a stored node against a `MERGE (n:L {name})`
pattern. -/
def nodeKeyEq (n : GraphNode) (label : String) (name : Option String) : Bool :=
  n.label == label && n.name == name

/-- Upsert `MERGE (n:L {name: $name}) SET n += $properties`: create the node if
absent, otherwise overwrite its provenance properties. -/
def mergeNodeProps (g : KGraph) (label : String) (name : Option String) (p : Prov) : KGraph :=
  if g.nodes.any (fun n => nodeKeyEq n label name) then
    { g with nodes := g.nodes.map (fun n =>
        if nodeKeyEq n label name then { n with prov := some p } else n) }
  else
    { g with nodes := g.nodes ++ [⟨label, name, some p⟩] }

/-- Upsert `MERGE (n:L {name: $name})` with no property write, as issued for the
endpoints inside `createRelationship`. -/
def mergeNodeBare (g : KGraph) (label : String) (name : Option String) : KGraph :=
  if g.nodes.any (fun n => nodeKeyEq n label name) then g
  else { g with nodes := g.nodes ++ [⟨label, name, none⟩] }

/-- Identity-key comparison of a stored edge against the
`MERGE (from)-[r:T]->(to)` pattern. -/
def edgeKeyEq (e : GraphEdge) (fl : String) (fn : Option String) (rt : String)
    (tl : String) (tn : Option String) : Bool :=
  e.fromLabel == fl && e.fromName == fn && e.relType == rt &&
    e.toLabel == tl && e.toName == tn

/-- Upsert `MERGE (from)-[r:T]->(to) SET r += $properties`. -/
def mergeEdge (g : KGraph) (fl : String) (fn : Option String) (rt : String)
    (tl : String) (tn : Option String) (p : Prov) : KGraph :=
  if g.edges.any (fun e => edgeKeyEq e fl fn rt tl tn) then
    { g with edges := g.edges.map (fun e =>
        if edgeKeyEq e fl fn rt tl tn then { e with prov := some p } else e) }
  else
    { g with edges := g.edges ++ [⟨fl, fn, rt, tl, tn, some p⟩] }

/-- Embedding of `createPersonNode` from `neo4jClient.js`. -/
def createPersonNode (g : KGraph) (name : Option String) (p : Prov) : KGraph :=
  mergeNodeProps g "Person" name p

/-- Embedding of `createCompanyNode` from `neo4jClient.js`. -/
def createCompanyNode (g : KGraph) (name : Option String) (p : Prov) : KGraph :=
  mergeNodeProps g "Company" name p

/-- Embedding of `createProductNode` from `neo4jClient.js`. -/
def createProductNode (g : KGraph) (name : Option String) (p : Prov) : KGraph :=
  mergeNodeProps g "Product" name p

/-- Embedding of `createFieldNode` from `neo4jClient.js`. -/
def createFieldNode (g : KGraph) (name : Option String) (p : Prov) : KGraph :=
  mergeNodeProps g "Field" name p

/-- The character class of the sanitizer regex `[^a-zA-Z0-9_]`
(`Char.isAlpha` / `Char.isDigit` are exactly the ASCII ranges). -/
def isWordChar (c : Char) : Bool :=
  c.isAlpha || c.isDigit || c == '_'

/-- Per-character action of the sanitizer regex replacement. -/
def sanChar (c : Char) : Char :=
  if isWordChar c then c else '_'

/-- Embedding of `sanitizeLabel` from `createRelationship`:
`label.replace(/[^a-zA-Z0-9_]/g, '_')`. -/
def sanitizeLabel (s : String) : String :=
  ⟨s.data.map sanChar⟩

/-- Embedding of `createRelationship` from `neo4jClient.js`: sanitize the three type
strings (on a missing one, `label.replace` throws a TypeError, modelled as
`Except.error`), then merge both endpoint nodes and the edge, writing the
provenance properties onto the edge. -/
def createRelationship (fromType : Option String) (fromName : Option String)
    (relType : Option String) (toType : Option String) (toName : Option String)
    (p : Prov) (g : KGraph) : Except String KGraph :=
  match fromType, toType, relType with
  | some ft, some tt, some rt =>
    let fl := sanitizeLabel ft
    let tl := sanitizeLabel tt
    let rl := sanitizeLabel rt
    .ok (mergeEdge (mergeNodeBare (mergeNodeBare g fl fromName) tl toName)
          fl fromName rl tl toName p)
  | _, _, _ => .error "TypeError: label.replace is not a function"

/-- The `{entities, relationships}` counters returned by
`storeExtraction`. -/
structure StoreCounts where
  entities : Nat
  relationships : Nat
deriving DecidableEq, Repr

/-- The entity `switch` inside `storeExtraction`: a type outside the four
cases falls through and stores nothing. -/
def storeEntity (p : Prov) (g : KGraph) (e : JEntity) : KGraph :=
  match e.type with
  | some "Person" => createPersonNode g e.name p
  | some "Company" => createCompanyNode g e.name p
  | some "Product" => createProductNode g e.name p
  | some "Field" => createFieldNode g e.name p
  | _ => g

/-- The entity loop of `storeExtraction`: `results.entities++` runs after
the `switch` for every iterated entity, matched or not. -/
def storeEntities (p : Prov) : List JEntity → KGraph → Nat → KGraph × Nat
  | [], g, k => (g, k)
  | e :: rest, g, k => storeEntities p rest (storeEntity p g e) (k + 1)

/-- The relationship loop of `storeExtraction`; a thrown TypeError aborts
the remaining iterations. -/
def storeRels (p : Prov) : List JRel → KGraph → Nat → Except String (KGraph × Nat)
  | [], g, k => .ok (g, k)
  | r :: rest, g, k =>
    match createRelationship r.from_type r.from_ r.type r.to_type r.to_ p g with
    | .error msg => .error msg
    | .ok g2 => storeRels p rest g2 (k + 1)

/-- Embedding of `storeExtraction` from `neo4jClient.js`: build the provenance record,
run the entity loop, then the relationship loop, and return the counters.
No validation happens here: `validateExtraction` is never invoked on this
path. -/
def storeExtraction (ext : Extraction) (chunkId docId : String) (g : KGraph) :
    Except String (KGraph × StoreCounts) :=
  let p : Prov := ⟨chunkId, docId⟩
  let en := storeEntities p ext.entities g 0
  match storeRels p ext.relationships en.1 0 with
  | .error msg => .error msg
  | .ok (g2, nr) => .ok (g2, ⟨en.2, nr⟩)

/-- Embedding of `getChunksByIds` from `mongodbClient.js`:
`find({chunk_id: {$in: chunkIds}})` returns the matching documents in
collection order, not in the order of the requested ids. -/
def getChunksByIds (store : List Chunk) (chunkIds : List String) : List Chunk :=
  store.filter (fun c => chunkIds.contains c.chunk_id)

/-- Insertion-ordered set-add on strings (JS `Set.prototype.add` keeps
first-insertion order). -/
def addUnique (l : List String) (s : String) : List String :=
  if l.contains s then l else l ++ [s]

/-- Insertion-ordered set-add on possibly-undefined strings (a JS `Set`
can hold `undefined`). -/
def addUniqueO (l : List (Option String)) (s : Option String) : List (Option String) :=
  if l.contains s then l else l ++ [s]

/-- Method 1 of `extractEntityNamesFromChunks`: collect `entity.name` from
every chunk carrying extraction metadata (an array field is always truthy
in JS, so the guard is just presence of `extraction`). -/
def extractionEntityNames (chunks : List Chunk) : List (Option String) :=
  chunks.foldl
    (fun acc c =>
      match c.extraction with
      | some ext => ext.entities.foldl (fun a e => addUniqueO a e.name) acc
      | none => acc)
    []

/-- The `MATCH (n) WHERE n.name IS NOT NULL RETURN DISTINCT n.name` query
of the method-2 fallback: the stored node names, de-duplicated keeping
first occurrences. -/
def graphNodeNames (g : KGraph) : List String :=
  (g.nodes.filterMap (fun n => n.name)).foldl addUnique []

/-- Character-list prefix test (helper for the JS `String.includes`). -/
def isPrefixChars : List Char → List Char → Bool
  | [], _ => true
  | _ :: _, [] => false
  | a :: as, b :: bs => a == b && isPrefixChars as bs

/-- Character-list substring test (helper for the JS `String.includes`). -/
def isInfixChars (sub : List Char) : List Char → Bool
  | [] => isPrefixChars sub []
  | b :: bs => isPrefixChars sub (b :: bs) || isInfixChars sub bs

/-- JS `hay.includes(sub)`. -/
def textIncludes (hay sub : String) : Bool :=
  isInfixChars sub.data hay.data

/-- JS `toLowerCase` on the characters of a string (`String.toLower`
character-by-character). -/
def strLower (s : String) : String :=
  ⟨s.data.map Char.toLower⟩

/-- Embedding of `extractEntityNamesFromChunks` from `hybridRetrieval.js`: prefer the
chunks' extraction metadata; only when that yields no names (and there are
chunks) fall back to scanning every known graph entity name for
case-insensitive substring containment in each chunk's text. -/
def extractEntityNamesFromChunks (g : KGraph) (chunks : List Chunk) : List (Option String) :=
  let m1 := extractionEntityNames chunks
  if m1.isEmpty && !chunks.isEmpty then
    chunks.foldl
      (fun acc c =>
        (graphNodeNames g).foldl
          (fun a entityName =>
            if textIncludes (strLower c.text) (strLower entityName) then
              addUniqueO a (some entityName)
            else a)
          acc)
      m1
  else m1

/-- A row of the traversal query of `findRelatedEntities`: the `related`
node at the end of one matched path together with that path's length
(`path.length` = hop count in the driver). -/
structure TravRec where
  related : GraphNode
  pathLen : Nat
deriving DecidableEq, Repr

/-- Pattern `MATCH (start {name: $entityName})`: every node whose `name` property
equals the parameter (a missing parameter matches nothing). -/
def matchStart (g : KGraph) (name : Option String) : List GraphNode :=
  match name with
  | none => []
  | some s => g.nodes.filter (fun n => n.name == some s)

/-- Resolve an edge endpoint reference to the stored node records with
that identity key. -/
def resolveNode (g : KGraph) (label : String) (name : Option String) : List GraphNode :=
  g.nodes.filter (fun n => nodeKeyEq n label name)

/-- One undirected hop (`-[..]-`) from a node, in edge-list order. -/
def stepNeighbors (g : KGraph) (n : GraphNode) : List GraphNode :=
  g.edges.foldr
    (fun e acc =>
      (if e.fromLabel == n.label && e.fromName == n.name then
        resolveNode g e.toLabel e.toName else []) ++
      (if e.toLabel == n.label && e.toName == n.name then
        resolveNode g e.fromLabel e.fromName else []) ++ acc)
    []

/-- End nodes of the walks of exactly `k` undirected hops from `start`
(the variable-length pattern of the traversal query). -/
def walkEndpoints (g : KGraph) (start : GraphNode) : Nat → List GraphNode
  | 0 => [start]
  | k + 1 => (walkEndpoints g start k).flatMap (stepNeighbors g)

/-- The rows of `MATCH path = (start {name: $entityName})-[*1..depth]-(related)
RETURN path, related, labels(related)` before the LIMIT: one row per path of
length 1..depth (for depth = 0 the pattern `*1..0` matches nothing). -/
def travRows (g : KGraph) (name : Option String) (depth : Nat) : List TravRec :=
  (matchStart g name).flatMap (fun start =>
    (List.range depth).flatMap (fun k =>
      (walkEndpoints g start (k + 1)).map (fun rel => ⟨rel, k + 1⟩)))

/-- Embedding of `findRelatedEntities` from `neo4jClient.js`: the traversal query with
its `LIMIT 50` applied at the query layer. -/
def findRelatedEntities (g : KGraph) (entityName : Option String) (depth : Nat) : List TravRec :=
  (travRows g entityName depth).take 50

/-- One discovered related entity as recorded by `expandViaGraph`:
`{name, type, chunk_id, doc_id}`, the ids read from the node's provenance
properties. -/
structure RelEnt where
  name : Option String
  type : String
  chunk_id : Option String
  doc_id : Option String
deriving DecidableEq, Repr

/-- One relationship path `{from, to, depth}` recorded by
`expandViaGraph`. -/
structure PathRec where
  from_ : Option String
  to_ : Option String
  depth : Nat
deriving DecidableEq, Repr

/-- The `chunk_id` property of a stored node (undefined when the node was
never written with provenance). -/
def provChunkId : Option Prov → Option String
  | none => none
  | some p => some p.chunk_id

/-- The `doc_id` property of a stored node. -/
def provDocId : Option Prov → Option String
  | none => none
  | some p => some p.doc_id

/-- JS string interpolation of a possibly-undefined string
(`${undefined}` prints "undefined"). -/
def optStr : Option String → String
  | none => "undefined"
  | some s => s

/-- The de-duplication key of `expandViaGraph`:
`` `${rel.type}:${rel.entity.name}` ``. -/
def entityKeyOf (t : TravRec) : String :=
  t.related.label ++ ":" ++ optStr t.related.name

/-- Accumulator of the `expandViaGraph` loops: the discovered entities,
the recorded paths, and the seen-key set. -/
structure ExpState where
  relatedEntities : List RelEnt
  paths : List PathRec
  seen : List String
deriving DecidableEq, Repr

/-- Body of the inner loop of `expandViaGraph`: record the entity if its
(type, name) key is new, and always record the path
(the driver's path object is truthy on every returned row). -/
def expandRecord (entityName : Option String) (st : ExpState) (t : TravRec) : ExpState :=
  let key := entityKeyOf t
  let st1 :=
    if st.seen.contains key then st
    else
      { st with
        seen := st.seen ++ [key],
        relatedEntities := st.relatedEntities ++
          [⟨t.related.name, t.related.label, provChunkId t.related.prov,
            provDocId t.related.prov⟩] }
  { st1 with paths := st1.paths ++ [⟨entityName, t.related.name, t.pathLen⟩] }

/-- Processing of one starting entity inside `expandViaGraph`: fold the
(capped) traversal rows into the accumulator. -/
def expandStep (g : KGraph) (depth : Nat) (st : ExpState) (entityName : Option String) : ExpState :=
  (findRelatedEntities g entityName depth).foldl (expandRecord entityName) st

/-- The result record of `expandViaGraph`. -/
structure Expansion where
  relatedEntities : List RelEnt
  paths : List PathRec
deriving DecidableEq, Repr

/-- Embedding of `expandViaGraph` from `hybridRetrieval.js`. -/
def expandViaGraph (g : KGraph) (entityNames : List (Option String)) (depth : Nat) : Expansion :=
  let st := entityNames.foldl (expandStep g depth) ⟨[], [], []⟩
  ⟨st.relatedEntities, st.paths⟩

/-- The `relatedChunkIds` set built in step 5 of `hybridRetrieval`:
`if (entity.chunk_id) relatedChunkIds.add(entity.chunk_id)`, in discovery
order (JS `Set` keeps insertion order). -/
def discoveredChunkIds (ents : List RelEnt) : List String :=
  ents.foldl
    (fun acc e =>
      match e.chunk_id with
      | some cid => if cid.isEmpty then acc else addUnique acc cid
      | none => acc)
    []

/-- The result record of `hybridRetrieval`. -/
structure HRResult where
  query : String
  vectorChunks : List Chunk
  graphEntities : List RelEnt
  graphChunks : List Chunk
  allChunks : List Chunk
  graphPaths : List PathRec
deriving DecidableEq, Repr

/-- The graph expansion performed inside `hybridRetrieval` (steps 3-4). -/
def hrExpansion (g : KGraph) (vectorResults : List Chunk) (graphDepth : Nat) : Expansion :=
  expandViaGraph g (extractEntityNamesFromChunks g vectorResults) graphDepth

/-- Step 5 of `hybridRetrieval`: resolve the discovered chunk ids from the
store (`relatedChunkIds.size > 0 ? getChunksByIds(...) : []`). -/
def hrGraphChunksRaw (g : KGraph) (store : List Chunk) (vectorResults : List Chunk)
    (graphDepth : Nat) : List Chunk :=
  let relatedChunkIds := discoveredChunkIds (hrExpansion g vectorResults graphDepth).relatedEntities
  if relatedChunkIds.isEmpty then [] else getChunksByIds store relatedChunkIds

/-- Step 6 of `hybridRetrieval`: drop graph chunks already present in the
vector result set. -/
def hrUniqueGraphChunks (g : KGraph) (store : List Chunk) (vectorResults : List Chunk)
    (graphDepth : Nat) : List Chunk :=
  (hrGraphChunksRaw g store vectorResults graphDepth).filter
    (fun c => !((vectorResults.map (fun v => v.chunk_id)).contains c.chunk_id))

/-- Embedding of `hybridRetrieval` from `hybridRetrieval.js`.  The query embedding and
the `$vectorSearch` call are external collaborators, so the ranked vector
result list is a parameter; `store` is the MongoDB collection backing
`getChunksByIds` and `g` the graph store backing entity resolution and
expansion. -/
def hybridRetrieval (query : String) (g : KGraph) (store : List Chunk)
    (vectorResults : List Chunk) (graphDepth : Nat) (includeGraphPaths : Bool) : HRResult :=
  if vectorResults.isEmpty then
    ⟨query, [], [], [], [], []⟩
  else
    let exp := hrExpansion g vectorResults graphDepth
    let uniqueGraphChunks := hrUniqueGraphChunks g store vectorResults graphDepth
    let allChunks := vectorResults ++ uniqueGraphChunks
    ⟨query, vectorResults, exp.relatedEntities, uniqueGraphChunks, allChunks,
      if includeGraphPaths then exp.paths else []⟩

/-- JS string interpolation of the chunk's `page_number`
(`${undefined}` prints "undefined", a number prints its decimal digits). -/
def pageStr : Option Nat → String
  | none => "undefined"
  | some n => Nat.repr n

/-- The de-duplication key of `extractCitations`:
`` `${chunk.doc_id}:${chunk.page_number}` ``. -/
def citeKey (c : Chunk) : String :=
  c.doc_id ++ ":" ++ pageStr c.page_number

/-- A citation object `{source_title, page_number, doc_id, chunk_id}`. -/
structure Citation where
  source_title : String
  page_number : Option Nat
  doc_id : String
  chunk_id : String
deriving DecidableEq, Repr

/-- The loop of `extractCitations` with its `seen` key set made explicit. -/
def extractCitationsAux (seen : List String) : List Chunk → List Citation
  | [] => []
  | c :: rest =>
    if seen.contains (citeKey c) then extractCitationsAux seen rest
    else
      ⟨c.source_title, c.page_number, c.doc_id, c.chunk_id⟩ ::
        extractCitationsAux (citeKey c :: seen) rest

/-- Embedding of `extractCitations` from the prompt-builder module: one citation per
unseen `doc_id:page_number` key, in first-occurrence order. -/
def extractCitations (chunks : List Chunk) : List Citation :=
  extractCitationsAux [] chunks

/-- Outcome of the single answer-generation call inside `queryGraphRAG`:
the model resolves with an answer, or `invoke` rejects (timeout or other
error — the inner catch does not distinguish). -/
inductive GenResult where
  | ok (answer : String)
  | failure
deriving DecidableEq, Repr

/-- The fixed fallback answer substituted by `queryGraphRAG` when the
generation call fails. -/
def fallbackAnswer : String :=
  "Unable to generate answer due to timeout. Try reducing graph depth or asking a simpler question."

/-- The fixed answer returned by `queryGraphRAG` on empty evidence. -/
def noInfoAnswer : String :=
  "I could not find relevant information to answer your question."

/-- The response object of `queryGraphRAG`. -/
structure QueryResponse where
  query : String
  answer : String
  citations : List Citation
  graphPaths : List PathRec
  retrievalResults : HRResult
deriving DecidableEq, Repr

/-- Embedding of `queryGraphRAG` from the query orchestrator: run hybrid retrieval;
on empty evidence return the fixed no-information answer with empty
citations and paths; otherwise build the prompt, make one generation call
(outcome `genOutcome`; the prompt string itself is consumed only by the
external model), substituting the fixed fallback answer if it fails, and
derive citations from the final evidence set.  No retry happens: the
single `genOutcome` is consumed once. -/
def queryGraphRAG (query : String) (g : KGraph) (store : List Chunk)
    (vectorResults : List Chunk) (graphDepth : Nat) (genOutcome : GenResult) : QueryResponse :=
  let retrievalResults := hybridRetrieval query g store vectorResults graphDepth true
  if retrievalResults.allChunks.isEmpty then
    ⟨query, noInfoAnswer, [], [], retrievalResults⟩
  else
    let answer :=
      match genOutcome with
      | .ok a => a
      | .failure => fallbackAnswer
    ⟨query, answer, extractCitations retrievalResults.allChunks,
      retrievalResults.graphPaths, retrievalResults⟩

/-- The most-significant-digit-first decimal digit list of a natural
number (the characterization of core's fuelled `Nat.toDigitsCore` proved
below). -/
def repCh (n : Nat) : List Char :=
  if _h : n < 10 then [Nat.digitChar n]
  else repCh (n / 10) ++ [Nat.digitChar (n % 10)]
termination_by n
decreasing_by exact Nat.div_lt_self (by omega) (by omega)

/-- Numeric value of a decimal digit character. -/
def charVal (c : Char) : Nat := c.toNat - 48

/-- Decode a decimal digit string back to the number it denotes. -/
def decodeCh (l : List Char) : Nat :=
  l.foldl (fun a c => a * 10 + charVal c) 0

/-- The (document identifier, page number) pair of a chunk. -/
def pairOfChunk (c : Chunk) : String × Option Nat := (c.doc_id, c.page_number)

/-- The (document identifier, page number) pair of a citation. -/
def pairOfCit (cit : Citation) : String × Option Nat := (cit.doc_id, cit.page_number)

/-- The citation key as a function of the (doc, page) pair. -/
def keyOfPair (pr : String × Option Nat) : String := pr.1 ++ ":" ++ pageStr pr.2

/-- The de-duplication key carried by an emitted citation. -/
def citKeyC (cit : Citation) : String := keyOfPair (pairOfCit cit)

/-- The citation object `extractCitations` builds from a chunk. -/
def mkCit (c : Chunk) : Citation := ⟨c.source_title, c.page_number, c.doc_id, c.chunk_id⟩

/-- Two character lists differ only in non-word characters: equal length,
and at each position the characters are equal or both outside the
`[a-zA-Z0-9_]` class. -/
def agreeModNonWord : List Char → List Char → Bool
  | [], [] => true
  | c1 :: t1, c2 :: t2 =>
    (c1 == c2 || (!isWordChar c1 && !isWordChar c2)) && agreeModNonWord t1 t2
  | _, _ => false

/-- Every character of the string is in the `[a-zA-Z0-9_]` class. -/
def labelWordOnly (s : String) : Prop := ∀ c ∈ s.data, isWordChar c = true

/-- Every edge of the graph carries only word-character labels. -/
def edgeLabelsWordOnly (g : KGraph) : Prop :=
  ∀ e ∈ g.edges, labelWordOnly e.fromLabel ∧ labelWordOnly e.relType ∧ labelWordOnly e.toLabel

/-- C1 failing input: one entity with a valid type but an empty (falsy)
name, and one relationship whose `to` endpoint is empty (falsy); both fail
the §4.1 checks of `validateExtraction`. -/
def exC1 : Extraction :=
  ⟨[⟨some "", some "Person"⟩],
   [⟨some "A", some "Person", some "CEO_OF", some "", some "Company"⟩], none⟩

/-- C8 counterexample input: a single entity whose type is outside the
fixed set, so the storage `switch` stores nothing. -/
def exC8 : Extraction := ⟨[⟨some "X", some "Organization"⟩], [], none⟩

/-- C2 counterexample: the single vector-result chunk; its text mentions
the graph entity "E". -/
def c2V : Chunk := ⟨"v", "d", "T", "E", some 1, none⟩

/-- C2 counterexample: the chunk referenced by the provenance of graph
entity "A" (discovered first). -/
def c2A : Chunk := ⟨"a", "d", "T", "about A", some 2, none⟩

/-- C2 counterexample: the chunk referenced by the provenance of graph
entity "B" (discovered second). -/
def c2B : Chunk := ⟨"b", "d", "T", "about B", some 3, none⟩

/-- C2 counterexample: the chunk store in collection order — chunk "b"
precedes chunk "a". -/
def c2Store : List Chunk := [c2B, c2A]

/-- C2 counterexample graph: entity E linked to A and B (edge order E-A
then E-B, so discovery order is A before B); A and B carry provenance to
chunks "a" and "b". -/
def c2Graph : KGraph :=
  ⟨[⟨"Person", some "E", none⟩,
    ⟨"Company", some "A", some ⟨"a", "d"⟩⟩,
    ⟨"Company", some "B", some ⟨"b", "d"⟩⟩],
   [⟨"Person", some "E", "PARTNERED_WITH", "Company", some "A", none⟩,
    ⟨"Person", some "E", "PARTNERED_WITH", "Company", some "B", none⟩]⟩

/-- A plain well-formed chunk used by several witnesses. -/
def chW : Chunk := ⟨"c1", "d1", "Title", "some text", some 1, none⟩

theorem extraction_error_empty (gen : String → GenOutcome) (t : String)
    (h : (extractEntitiesAndRelationships gen t).error.isSome) :
    (extractEntitiesAndRelationships gen t).entities = [] ∧
    (extractEntitiesAndRelationships gen t).relationships = [] := by
  unfold extractEntitiesAndRelationships at *
  match hg : gen t with
  | .timeout => simp
  | .response (.unparseable d) => simp
  | .response .nonObject => simp
  | .response (.obj ents rels) => rw [hg] at h; simp at h

/-- C4: for every input text, `extractEntitiesAndRelationships` never
throws: if the generation call times out or returns output that fails to
parse as JSON, it returns an extraction whose `entities` and
`relationships` are both empty arrays with a diagnostic message attached,
never propagating the fault (the function is total). -/
theorem c4_extraction_faults_recovered (gen : String → GenOutcome) (text : String)
    (h : gen text = GenOutcome.timeout ∨
         ∃ d, gen text = GenOutcome.response (RawJson.unparseable d)) :
    (extractEntitiesAndRelationships gen text).entities = [] ∧
    (extractEntitiesAndRelationships gen text).relationships = [] ∧
    (extractEntitiesAndRelationships gen text).error.isSome = true := by
  rcases h with h | ⟨d, h⟩ <;> simp [extractEntitiesAndRelationships, h]

theorem c4_extraction_faults_recovered_witness :
    (extractEntitiesAndRelationships (fun _ => GenOutcome.timeout) "text").entities = [] ∧
    (extractEntitiesAndRelationships (fun _ => GenOutcome.timeout) "text").relationships = [] ∧
    (extractEntitiesAndRelationships (fun _ => GenOutcome.timeout) "text").error.isSome = true :=
  c4_extraction_faults_recovered (fun _ => GenOutcome.timeout) "text" (Or.inl rfl)

theorem extractFromChunks_eq_map (gen : String → GenOutcome) (chunks : List Chunk) :
    extractFromChunks gen chunks =
      chunks.map (fun c => (c, extractEntitiesAndRelationships gen c.text)) := by
  induction chunks with
  | nil => rfl
  | cons c rest ih => simpa [extractFromChunks] using ih

/-- C10: batch extraction returns exactly one output record per input
chunk, in input order, each pairing the chunk with the extraction of its
own text (so one chunk's failure cannot affect the others), and on any
failed extraction (error attached) the entity and relationship fields are
empty arrays. -/
theorem c10_batch_extraction_shape (gen : String → GenOutcome) (chunks : List Chunk) :
    (extractFromChunks gen chunks).length = chunks.length ∧
    extractFromChunks gen chunks =
      chunks.map (fun c => (c, extractEntitiesAndRelationships gen c.text)) ∧
    ∀ pr ∈ extractFromChunks gen chunks,
      pr.2.error.isSome = true → pr.2.entities = [] ∧ pr.2.relationships = [] := by
  refine ⟨by rw [extractFromChunks_eq_map]; exact List.length_map _ _,
    extractFromChunks_eq_map gen chunks, ?_⟩
  intro pr hpr herr
  rw [extractFromChunks_eq_map] at hpr
  rcases List.mem_map.mp hpr with ⟨c, _, hc⟩
  subst hc
  exact extraction_error_empty gen c.text herr

theorem c10_batch_extraction_shape_witness :
    (chW, extractEntitiesAndRelationships (fun _ => GenOutcome.timeout) chW.text).2.entities = [] ∧
    (chW, extractEntitiesAndRelationships (fun _ => GenOutcome.timeout) chW.text).2.relationships = [] :=
  (c10_batch_extraction_shape (fun _ => GenOutcome.timeout) [chW]).2.2 _
    (by simp [extractFromChunks]) (by decide)

theorem findRelatedEntities_depth_zero (g : KGraph) (name : Option String) :
    findRelatedEntities g name 0 = [] := by
  simp [findRelatedEntities, travRows]

theorem expandViaGraph_depth_zero (g : KGraph) (names : List (Option String)) :
    expandViaGraph g names 0 = ⟨[], []⟩ := by
  unfold expandViaGraph
  have hfix : ∀ (st : ExpState) (n : Option String), expandStep g 0 st n = st := by
    intro st n
    unfold expandStep
    rw [findRelatedEntities_depth_zero]
    rfl
  have hfold : ∀ (l : List (Option String)) (st : ExpState),
      l.foldl (expandStep g 0) st = st := by
    intro l
    induction l with
    | nil => intro st; rfl
    | cons n rest ih => intro st; rw [List.foldl_cons, hfix]; exact ih st
  rw [hfold]

/-- C3: with `graphDepth = 0` the traversal pattern `*1..0` matches
nothing, so `hybridRetrieval` returns exactly the raw semantic result set
(same passages, same order) and an empty relationship-path list. -/
theorem c3_depth_zero_vector_only (query : String) (g : KGraph) (store : List Chunk)
    (vectorResults : List Chunk) (includeGraphPaths : Bool) :
    (hybridRetrieval query g store vectorResults 0 includeGraphPaths).allChunks = vectorResults ∧
    (hybridRetrieval query g store vectorResults 0 includeGraphPaths).graphPaths = [] := by
  unfold hybridRetrieval
  by_cases hv : vectorResults.isEmpty
  · rw [List.isEmpty_iff] at hv
    subst hv
    simp
  · simp only [hv, Bool.false_eq_true, if_false]
    have hexp : hrExpansion g vectorResults 0 = ⟨[], []⟩ := expandViaGraph_depth_zero _ _
    have huniq : hrUniqueGraphChunks g store vectorResults 0 = [] := by
      unfold hrUniqueGraphChunks hrGraphChunksRaw
      rw [hexp]
      simp [discoveredChunkIds]
    rw [hexp, huniq]
    simp

theorem expandRecord_length_le (entityName : Option String) (st : ExpState) (t : TravRec) :
    (expandRecord entityName st t).relatedEntities.length ≤ st.relatedEntities.length + 1 := by
  unfold expandRecord
  by_cases hseen : entityKeyOf t ∈ st.seen
  · simp [hseen]
  · simp [hseen]

theorem foldl_expandRecord_length_le (entityName : Option String) :
    ∀ (rows : List TravRec) (st : ExpState),
      ((rows.foldl (expandRecord entityName) st).relatedEntities.length ≤
        st.relatedEntities.length + rows.length) := by
  intro rows
  induction rows with
  | nil => intro st; simp
  | cons t rest ih =>
    intro st
    rw [List.foldl_cons]
    calc ((rest.foldl (expandRecord entityName) (expandRecord entityName st t)).relatedEntities.length)
        ≤ (expandRecord entityName st t).relatedEntities.length + rest.length := ih _
      _ ≤ (st.relatedEntities.length + 1) + rest.length :=
          Nat.add_le_add_right (expandRecord_length_le entityName st t) _
      _ = st.relatedEntities.length + (t :: rest).length := by simp; omega

/-- C7: one graph-traversal call returns at most 50 records — the cap is
the `LIMIT 50` of the traversal query — so processing one starting entity
inside `expandViaGraph` grows the discovered-entity list by at most 50,
whatever the entity's true degree in the graph. -/
theorem c7_traversal_cap (g : KGraph) (entityName : Option String) (depth : Nat) :
    (findRelatedEntities g entityName depth).length ≤ 50 ∧
    ∀ st : ExpState,
      (expandStep g depth st entityName).relatedEntities.length ≤
        st.relatedEntities.length + 50 := by
  have hlen : (findRelatedEntities g entityName depth).length ≤ 50 := by
    unfold findRelatedEntities
    rw [List.length_take]
    exact Nat.min_le_left _ _
  refine ⟨hlen, ?_⟩
  intro st
  unfold expandStep
  calc ((findRelatedEntities g entityName depth).foldl (expandRecord entityName) st).relatedEntities.length
      ≤ st.relatedEntities.length + (findRelatedEntities g entityName depth).length :=
        foldl_expandRecord_length_le entityName _ st
    _ ≤ st.relatedEntities.length + 50 := Nat.add_le_add_left hlen _

/-- C1: the claim fails on the code — `storeExtraction` performs no §4.1
validation.  `exC1` fails `validateExtraction` (empty entity name, empty
relationship endpoint), yet its entity is written as a Person node with
provenance and its relationship is merged as an edge; nothing is dropped.
`validateExtraction` exists but is dead code on the storage path. -/
theorem c1_invalid_extraction_reaches_graph :
    validateExtraction exC1 = false ∧
    storeExtraction exC1 "chunk-1" "doc-1" kgEmpty =
      Except.ok
        (⟨[⟨"Person", some "", some ⟨"chunk-1", "doc-1"⟩⟩,
           ⟨"Person", some "A", none⟩,
           ⟨"Company", some "", none⟩],
          [⟨"Person", some "A", "CEO_OF", "Company", some "", some ⟨"chunk-1", "doc-1"⟩⟩]⟩,
         ⟨1, 1⟩) :=
  ⟨rfl, rfl⟩

/-- C8 counterexample: an entity whose type is outside the fixed set is
skipped by the storage `switch` (the graph stays empty) but still counted:
the returned entity count is 1 while 0 entities were stored. -/
theorem c8_counterexample_unknown_type_counted :
    storeExtraction exC8 "c" "d" kgEmpty = Except.ok (kgEmpty, ⟨1, 0⟩) ∧
    kgEmpty.nodes.length = 0 :=
  ⟨rfl, rfl⟩

theorem storeEntities_count (p : Prov) :
    ∀ (l : List JEntity) (g : KGraph) (k : Nat),
      (storeEntities p l g k).2 = k + l.length := by
  intro l
  induction l with
  | nil => intro g k; simp [storeEntities]
  | cons e rest ih =>
    intro g k
    rw [storeEntities, ih]
    simp [Nat.add_comm, Nat.add_assoc, Nat.add_left_comm]

theorem storeRels_count (p : Prov) :
    ∀ (l : List JRel) (g : KGraph) (k : Nat) (g2 : KGraph) (k2 : Nat),
      storeRels p l g k = Except.ok (g2, k2) → k2 = k + l.length := by
  intro l
  induction l with
  | nil =>
    intro g k g2 k2 h
    simp [storeRels] at h
    simp [h.2]
  | cons r rest ih =>
    intro g k g2 k2 h
    rw [storeRels] at h
    cases hc : createRelationship r.from_type r.from_ r.type r.to_type r.to_ p g with
    | error msg => rw [hc] at h; cases h
    | ok g3 =>
      rw [hc] at h
      have := ih g3 (k + 1) g2 k2 h
      rw [this]
      simp [Nat.add_comm, Nat.add_assoc, Nat.add_left_comm]

/-- C8 amended: when `storeExtraction` completes, the returned counts are
the lengths of the input entity and relationship lists — every iterated
item is counted, including entities whose unknown type stored nothing, so
the entity count can exceed the number actually persisted. -/
theorem c8_counts_equal_input_lengths (ext : Extraction) (chunkId docId : String)
    (g g2 : KGraph) (counts : StoreCounts)
    (h : storeExtraction ext chunkId docId g = Except.ok (g2, counts)) :
    counts.entities = ext.entities.length ∧
    counts.relationships = ext.relationships.length := by
  simp only [storeExtraction] at h
  cases hr : storeRels ⟨chunkId, docId⟩ ext.relationships
      (storeEntities ⟨chunkId, docId⟩ ext.entities g 0).1 0 with
  | error msg => rw [hr] at h; cases h
  | ok pr =>
    rw [hr] at h
    cases pr with
    | mk g3 nr =>
      have hco : counts = ⟨(storeEntities ⟨chunkId, docId⟩ ext.entities g 0).2, nr⟩ := by
        cases h
        rfl
      rw [hco]
      refine ⟨?_, ?_⟩
      · have := storeEntities_count ⟨chunkId, docId⟩ ext.entities g 0
        simpa using this
      · have := storeRels_count ⟨chunkId, docId⟩ ext.relationships _ 0 g3 nr hr
        simpa using this

theorem c8_counts_equal_input_lengths_witness :
    (⟨0, 0⟩ : StoreCounts).entities = (⟨[], [], none⟩ : Extraction).entities.length ∧
    (⟨0, 0⟩ : StoreCounts).relationships = (⟨[], [], none⟩ : Extraction).relationships.length :=
  c8_counts_equal_input_lengths ⟨[], [], none⟩ "c" "d" kgEmpty kgEmpty ⟨0, 0⟩ rfl

/-- C6: when retrieval produced a non-empty evidence set and the single
generation call fails (timeout), `queryGraphRAG` does not retry: it
returns the fixed fallback answer, with citations extracted from the
already-retrieved evidence set and the graph paths of the retrieval
result. -/
theorem c6_generation_timeout_fallback (query : String) (g : KGraph) (store : List Chunk)
    (vectorResults : List Chunk) (graphDepth : Nat)
    (h : (hybridRetrieval query g store vectorResults graphDepth true).allChunks ≠ []) :
    (queryGraphRAG query g store vectorResults graphDepth GenResult.failure).answer =
      fallbackAnswer ∧
    (queryGraphRAG query g store vectorResults graphDepth GenResult.failure).citations =
      extractCitations (hybridRetrieval query g store vectorResults graphDepth true).allChunks ∧
    (queryGraphRAG query g store vectorResults graphDepth GenResult.failure).graphPaths =
      (hybridRetrieval query g store vectorResults graphDepth true).graphPaths := by
  have hne : (hybridRetrieval query g store vectorResults graphDepth true).allChunks.isEmpty = false := by
    cases hl : (hybridRetrieval query g store vectorResults graphDepth true).allChunks with
    | nil => exact absurd hl h
    | cons a l => rfl
  unfold queryGraphRAG
  simp [hne]

theorem c6_generation_timeout_fallback_witness :
    (queryGraphRAG "q" kgEmpty [] [chW] 0 GenResult.failure).answer = fallbackAnswer ∧
    (queryGraphRAG "q" kgEmpty [] [chW] 0 GenResult.failure).citations =
      extractCitations (hybridRetrieval "q" kgEmpty [] [chW] 0 true).allChunks ∧
    (queryGraphRAG "q" kgEmpty [] [chW] 0 GenResult.failure).graphPaths =
      (hybridRetrieval "q" kgEmpty [] [chW] 0 true).graphPaths :=
  c6_generation_timeout_fallback "q" kgEmpty [] [chW] 0 (by decide)

theorem sanChar_word (c : Char) : isWordChar (sanChar c) = true := by
  unfold sanChar
  by_cases hw : isWordChar c = true
  · simp [hw]
  · simp [hw]
    rfl

theorem sanitizeLabel_wordOnly (s : String) : labelWordOnly (sanitizeLabel s) := by
  intro c hc
  rcases List.mem_map.mp hc with ⟨a, _, ha⟩
  rw [← ha]
  exact sanChar_word a

theorem agreeModNonWord_map_sanChar :
    ∀ (l1 l2 : List Char), agreeModNonWord l1 l2 = true → l1.map sanChar = l2.map sanChar := by
  intro l1
  induction l1 with
  | nil =>
    intro l2 h
    cases l2 with
    | nil => rfl
    | cons c t => exact absurd h (by simp [agreeModNonWord])
  | cons c1 t1 ih =>
    intro l2 h
    cases l2 with
    | nil => exact absurd h (by simp [agreeModNonWord])
    | cons c2 t2 =>
      rw [agreeModNonWord, Bool.and_eq_true, Bool.or_eq_true] at h
      rcases h with ⟨hhead, htail⟩
      have hch : sanChar c1 = sanChar c2 := by
        rcases hhead with heq | hnw
        · rw [eq_of_beq heq]
        · rw [Bool.and_eq_true] at hnw
          unfold sanChar
          have h1 : isWordChar c1 = false := by
            cases hic : isWordChar c1
            · rfl
            · rw [hic] at hnw; simp at hnw
          have h2 : isWordChar c2 = false := by
            cases hic : isWordChar c2
            · rfl
            · rw [hic] at hnw; simp at hnw
          rw [h1, h2]
          rfl
      simp only [List.map_cons, hch, ih t2 htail]

theorem mergeNodeBare_edges (g : KGraph) (l : String) (n : Option String) :
    (mergeNodeBare g l n).edges = g.edges := by
  unfold mergeNodeBare
  split <;> rfl

theorem mergeEdge_wordOnly (g : KGraph) (fl : String) (fn : Option String) (rt : String)
    (tl : String) (tn : Option String) (p : Prov)
    (hfl : labelWordOnly fl) (hrt : labelWordOnly rt) (htl : labelWordOnly tl)
    (hg : edgeLabelsWordOnly g) : edgeLabelsWordOnly (mergeEdge g fl fn rt tl tn p) := by
  unfold mergeEdge
  split
  · intro e he
    simp only [List.mem_map] at he
    rcases he with ⟨e0, he0, heq⟩
    have hlab := hg e0 he0
    by_cases hk : edgeKeyEq e0 fl fn rt tl tn = true
    · rw [if_pos hk] at heq
      rw [← heq]
      exact hlab
    · rw [if_neg hk] at heq
      rw [← heq]
      exact hlab
  · intro e he
    rcases List.mem_append.mp he with h0 | h1
    · exact hg e h0
    · rcases List.mem_singleton.mp h1 with rfl
      exact ⟨hfl, hrt, htl⟩

/-- C9: every node label and relationship type spliced into the upsert
query by `createRelationship` passes through `sanitizeLabel`, which
replaces every character outside `[a-zA-Z0-9_]` by an underscore: labels
consist only of word characters, two extracted type strings differing only
in non-word characters map to the same stored label, and a graph whose
edges carry only word-character labels keeps that property across any
successful `createRelationship`. -/
theorem c9_labels_sanitized :
    (∀ s : String, labelWordOnly (sanitizeLabel s)) ∧
    (∀ s1 s2 : String, agreeModNonWord s1.data s2.data = true →
       sanitizeLabel s1 = sanitizeLabel s2) ∧
    (∀ (ft : String) (fn : Option String) (rt tt : String) (tn : Option String)
       (p : Prov) (g g2 : KGraph),
       createRelationship (some ft) fn (some rt) (some tt) tn p g = Except.ok g2 →
       edgeLabelsWordOnly g → edgeLabelsWordOnly g2) := by
  refine ⟨sanitizeLabel_wordOnly, ?_, ?_⟩
  · intro s1 s2 h
    unfold sanitizeLabel
    rw [agreeModNonWord_map_sanChar s1.data s2.data h]
  · intro ft fn rt tt tn p g g2 h hg
    unfold createRelationship at h
    have hg2 : g2 = mergeEdge (mergeNodeBare (mergeNodeBare g (sanitizeLabel ft) fn)
        (sanitizeLabel tt) tn) (sanitizeLabel ft) fn (sanitizeLabel rt)
        (sanitizeLabel tt) tn p := by
      cases h
      rfl
    rw [hg2]
    apply mergeEdge_wordOnly _ _ _ _ _ _ _
      (sanitizeLabel_wordOnly ft) (sanitizeLabel_wordOnly rt) (sanitizeLabel_wordOnly tt)
    intro e he
    rw [mergeNodeBare_edges, mergeNodeBare_edges] at he
    exact hg e he

theorem c9_labels_sanitized_witness :
    sanitizeLabel "CEO OF" = sanitizeLabel "CEO-OF" ∧
    edgeLabelsWordOnly
      (mergeEdge (mergeNodeBare (mergeNodeBare kgEmpty "Person" (some "A")) "Company" (some "B"))
        "Person" (some "A") "CEO_OF" "Company" (some "B") ⟨"c", "d"⟩) :=
  ⟨c9_labels_sanitized.2.1 "CEO OF" "CEO-OF" (by decide),
   c9_labels_sanitized.2.2 "Person" (some "A") "CEO_OF" "Company" (some "B") ⟨"c", "d"⟩
     kgEmpty _ rfl (fun e he => absurd he (List.not_mem_nil e))⟩

theorem hybridRetrieval_allChunks_eq (query : String) (g : KGraph) (store vr : List Chunk)
    (depth : Nat) (ip : Bool) :
    (hybridRetrieval query g store vr depth ip).allChunks =
      vr ++ (hybridRetrieval query g store vr depth ip).graphChunks := by
  unfold hybridRetrieval
  by_cases h : vr.isEmpty
  · rw [List.isEmpty_iff] at h
    subst h
    simp
  · simp only [h, Bool.false_eq_true, if_false]

theorem hybridRetrieval_graphChunks_cases (query : String) (g : KGraph) (store vr : List Chunk)
    (depth : Nat) (ip : Bool) :
    (hybridRetrieval query g store vr depth ip).graphChunks = [] ∨
    (hybridRetrieval query g store vr depth ip).graphChunks =
      hrUniqueGraphChunks g store vr depth := by
  unfold hybridRetrieval
  by_cases h : vr.isEmpty
  · simp [h]
  · simp [h]

theorem hrGraphChunksRaw_sublist (g : KGraph) (store vr : List Chunk) (depth : Nat) :
    List.Sublist (hrGraphChunksRaw g store vr depth) store := by
  simp only [hrGraphChunksRaw, getChunksByIds]
  split
  · exact List.nil_sublist store
  · exact List.filter_sublist store

theorem hrUnique_sublist_store (g : KGraph) (store vr : List Chunk) (depth : Nat) :
    List.Sublist (hrUniqueGraphChunks g store vr depth) store := by
  unfold hrUniqueGraphChunks
  exact List.Sublist.trans (List.filter_sublist _) (hrGraphChunksRaw_sublist g store vr depth)

theorem hrUnique_not_in_vector (g : KGraph) (store vr : List Chunk) (depth : Nat) :
    ∀ c ∈ hrUniqueGraphChunks g store vr depth,
      c.chunk_id ∉ vr.map (fun v => v.chunk_id) := by
  intro c hc
  unfold hrUniqueGraphChunks at hc
  have := List.of_mem_filter hc
  simpa using this

/-- C2 amended: the final evidence set has pairwise-distinct passage
identifiers, contains only passages from the semantic result or from the
graph-resolved lookup, and is the semantic result list (in ranked order)
followed by the graph-origin passages — the latter in chunk-store
(collection) order, a subsequence of the store, because `getChunksByIds`
returns `$in` matches in collection order rather than in the discovery
order of the requested ids. -/
theorem c2_evidence_set (query : String) (g : KGraph) (store vr : List Chunk)
    (depth : Nat) (ip : Bool)
    (hv : (vr.map (fun c => c.chunk_id)).Nodup)
    (hs : (store.map (fun c => c.chunk_id)).Nodup) :
    ((hybridRetrieval query g store vr depth ip).allChunks.map (fun c => c.chunk_id)).Nodup ∧
    (∀ c ∈ (hybridRetrieval query g store vr depth ip).allChunks,
       c ∈ vr ∨ c ∈ hrGraphChunksRaw g store vr depth) ∧
    (hybridRetrieval query g store vr depth ip).allChunks =
      vr ++ (hybridRetrieval query g store vr depth ip).graphChunks ∧
    List.Sublist (hybridRetrieval query g store vr depth ip).graphChunks store := by
  have hall := hybridRetrieval_allChunks_eq query g store vr depth ip
  have hgc := hybridRetrieval_graphChunks_cases query g store vr depth ip
  have hsub : List.Sublist (hybridRetrieval query g store vr depth ip).graphChunks store := by
    rcases hgc with hgc | hgc
    · rw [hgc]; exact List.nil_sublist store
    · rw [hgc]; exact hrUnique_sublist_store g store vr depth
  refine ⟨?_, ?_, hall, hsub⟩
  · rw [hall, List.map_append, List.nodup_append]
    refine ⟨hv, ?_, ?_⟩
    · exact List.Nodup.sublist (List.Sublist.map _ hsub) hs
    · intro a ha hb
      rcases List.mem_map.mp hb with ⟨c, hc, hcid⟩
      rcases hgc with hgc | hgc
      · rw [hgc] at hc
        cases hc
      · rw [hgc] at hc
        exact (hrUnique_not_in_vector g store vr depth c hc) (hcid ▸ ha)
  · intro c hc
    rw [hall] at hc
    rcases List.mem_append.mp hc with h1 | h2
    · exact Or.inl h1
    · rcases hgc with hgc | hgc
      · rw [hgc] at h2
        cases h2
      · rw [hgc] at h2
        unfold hrUniqueGraphChunks at h2
        exact Or.inr (List.mem_of_mem_filter h2)

theorem c2_evidence_set_witness :
    ((hybridRetrieval "q" kgEmpty [] [chW] 0 true).allChunks.map (fun c => c.chunk_id)).Nodup ∧
    (∀ c ∈ (hybridRetrieval "q" kgEmpty [] [chW] 0 true).allChunks,
       c ∈ [chW] ∨ c ∈ hrGraphChunksRaw kgEmpty [] [chW] 0) ∧
    (hybridRetrieval "q" kgEmpty [] [chW] 0 true).allChunks =
      [chW] ++ (hybridRetrieval "q" kgEmpty [] [chW] 0 true).graphChunks ∧
    List.Sublist (hybridRetrieval "q" kgEmpty [] [chW] 0 true).graphChunks [] :=
  c2_evidence_set "q" kgEmpty [] [chW] 0 true (by decide) (by decide)

/-- C2 counterexample: the graph discovers chunk "a" before chunk "b"
(`discoveredChunkIds` = ["a","b"]), but the chunk store holds "b" before
"a", and `getChunksByIds` returns store order — the final evidence set is
[v, b, a], not the claimed semantic-then-discovery order [v, a, b]. -/
theorem c2_order_counterexample :
    (hybridRetrieval "q" c2Graph c2Store [c2V] 1 true).allChunks = [c2V, c2B, c2A] ∧
    discoveredChunkIds (hrExpansion c2Graph [c2V] 1).relatedEntities = ["a", "b"] ∧
    c2A.chunk_id = "a" ∧ c2B.chunk_id = "b" ∧
    (hybridRetrieval "q" c2Graph c2Store [c2V] 1 true).allChunks ≠ [c2V, c2A, c2B] := by
  refine ⟨?_, ?_, rfl, rfl, ?_⟩ <;> decide

theorem digitChar_isDigit (d : Nat) (h : d < 10) : (Nat.digitChar d).isDigit = true := by
  interval_cases d <;> decide

theorem charVal_digitChar (d : Nat) (h : d < 10) : charVal (Nat.digitChar d) = d := by
  interval_cases d <;> decide

theorem toDigitsCore_eq_repCh :
    ∀ (f n : Nat) (ds : List Char), n < f → Nat.toDigitsCore 10 f n ds = repCh n ++ ds := by
  intro f
  induction f with
  | zero => intro n ds h; exact absurd h (Nat.not_lt_zero n)
  | succ f ih =>
    intro n ds h
    rw [Nat.toDigitsCore]
    by_cases h0 : n / 10 = 0
    · have hn : n < 10 := by
        rw [Nat.div_eq_zero_iff (by omega)] at h0
        exact h0
      simp only [h0, if_true]
      rw [repCh]
      rw [dif_pos hn, Nat.mod_eq_of_lt hn]
      rfl
    · have hpos : 0 < n := by
        rcases Nat.eq_zero_or_pos n with rfl | hp
        · exact absurd (by decide : 0 / 10 = 0) h0
        · exact hp
      have hlt : n / 10 < f :=
        Nat.lt_of_lt_of_le (Nat.div_lt_self hpos (by omega)) (Nat.le_of_lt_succ h)
      simp only [h0, if_false]
      rw [ih (n / 10) (Nat.digitChar (n % 10) :: ds) hlt]
      have hge : ¬ n < 10 := by
        intro hn
        exact h0 (Nat.div_eq_of_lt hn)
      conv_rhs => rw [repCh]
      rw [dif_neg hge, List.append_assoc]
      rfl

theorem repr_eq_repCh (n : Nat) : Nat.repr n = ⟨repCh n⟩ := by
  unfold Nat.repr Nat.toDigits
  rw [toDigitsCore_eq_repCh (n + 1) n [] (Nat.lt_succ_self n), List.append_nil]
  rfl

theorem repCh_isDigit : ∀ (n : Nat), ∀ c ∈ repCh n, c.isDigit = true := by
  intro n
  induction n using Nat.strong_induction_on with
  | _ n ih =>
    intro c hc
    rw [repCh] at hc
    by_cases h : n < 10
    · rw [dif_pos h] at hc
      rcases List.mem_singleton.mp hc with rfl
      exact digitChar_isDigit n h
    · rw [dif_neg h] at hc
      rcases List.mem_append.mp hc with h1 | h2
      · exact ih (n / 10) (Nat.div_lt_self (by omega) (by omega)) c h1
      · rcases List.mem_singleton.mp h2 with rfl
        exact digitChar_isDigit _ (Nat.mod_lt n (by omega))

theorem decodeCh_append_digit (l : List Char) (c : Char) :
    decodeCh (l ++ [c]) = decodeCh l * 10 + charVal c := by
  unfold decodeCh
  rw [List.foldl_append]
  rfl

theorem decodeCh_repCh : ∀ (n : Nat), decodeCh (repCh n) = n := by
  intro n
  induction n using Nat.strong_induction_on with
  | _ n ih =>
    rw [repCh]
    by_cases h : n < 10
    · rw [dif_pos h]
      show 0 * 10 + charVal (Nat.digitChar n) = n
      rw [Nat.zero_mul, Nat.zero_add]
      exact charVal_digitChar n h
    · rw [dif_neg h]
      rw [decodeCh_append_digit]
      rw [ih (n / 10) (Nat.div_lt_self (by omega) (by omega))]
      rw [charVal_digitChar _ (Nat.mod_lt n (by omega))]
      rw [Nat.mul_comm]
      exact Nat.div_add_mod n 10

theorem repCh_inj {m n : Nat} (h : repCh m = repCh n) : m = n := by
  have := congrArg decodeCh h
  rwa [decodeCh_repCh, decodeCh_repCh] at this

theorem nat_repr_inj {m n : Nat} (h : Nat.repr m = Nat.repr n) : m = n := by
  rw [repr_eq_repCh, repr_eq_repCh] at h
  exact repCh_inj (congrArg String.data h)

theorem pageStr_no_colon (o : Option Nat) : ':' ∉ (pageStr o).data := by
  cases o with
  | none => decide
  | some n =>
    show ':' ∉ (Nat.repr n).data
    rw [repr_eq_repCh]
    intro hmem
    have := repCh_isDigit n ':' hmem
    exact absurd this (by decide)

theorem pageStr_inj : ∀ (o1 o2 : Option Nat), pageStr o1 = pageStr o2 → o1 = o2 := by
  intro o1 o2 h
  cases o1 with
  | none =>
    cases o2 with
    | none => rfl
    | some n =>
      exfalso
      have hd : ("undefined" : String).data = (Nat.repr n).data := congrArg String.data h
      rw [repr_eq_repCh] at hd
      have hu : 'u' ∈ repCh n := by
        have hd2 : ("undefined" : String).data = repCh n := hd
        rw [← hd2]
        decide
      exact absurd (repCh_isDigit n 'u' hu) (by decide)
  | some m =>
    cases o2 with
    | none =>
      exfalso
      have hd : (Nat.repr m).data = ("undefined" : String).data := congrArg String.data h
      rw [repr_eq_repCh] at hd
      have hu : 'u' ∈ repCh m := by
        have hd2 : repCh m = ("undefined" : String).data := hd
        rw [hd2]
        decide
      exact absurd (repCh_isDigit m 'u' hu) (by decide)
    | some n =>
      rw [nat_repr_inj h]

theorem colon_split :
    ∀ (u : List Char), ':' ∉ u → ∀ (v s t : List Char), ':' ∉ v →
      u ++ ':' :: s = v ++ ':' :: t → u = v ∧ s = t := by
  intro u
  induction u with
  | nil =>
    intro _ v s t hv h
    cases v with
    | nil =>
      rw [List.nil_append, List.nil_append] at h
      injection h with _ h2
      exact ⟨rfl, h2⟩
    | cons b vt =>
      rw [List.nil_append, List.cons_append] at h
      injection h with h1 _
      exact absurd (h1 ▸ List.mem_cons_self b vt) hv
  | cons a ut ih =>
    intro hu v s t hv h
    cases v with
    | nil =>
      rw [List.cons_append, List.nil_append] at h
      injection h with h1 _
      exact absurd (h1 ▸ List.mem_cons_self a ut) hu
    | cons b vt =>
      rw [List.cons_append, List.cons_append] at h
      injection h with h1 h2
      have hut : ':' ∉ ut := fun hm => hu (List.mem_cons_of_mem a hm)
      have hvt : ':' ∉ vt := fun hm => hv (List.mem_cons_of_mem b hm)
      rcases ih hut vt s t hvt h2 with ⟨he1, he2⟩
      exact ⟨by rw [h1, he1], he2⟩

theorem string_data_append (s t : String) : (s ++ t).data = s.data ++ t.data := by
  cases s
  cases t
  rfl

theorem keyOfPair_inj (pr1 pr2 : String × Option Nat)
    (h : keyOfPair pr1 = keyOfPair pr2) : pr1 = pr2 := by
  unfold keyOfPair at h
  have hd : pr1.1.data ++ ':' :: (pageStr pr1.2).data =
      pr2.1.data ++ ':' :: (pageStr pr2.2).data := by
    have := congrArg String.data h
    rw [string_data_append, string_data_append, string_data_append, string_data_append] at this
    simpa using this
  have hrev : (pageStr pr1.2).data.reverse ++ ':' :: pr1.1.data.reverse =
      (pageStr pr2.2).data.reverse ++ ':' :: pr2.1.data.reverse := by
    have := congrArg List.reverse hd
    simpa [List.reverse_append] using this
  have h1colon : ':' ∉ (pageStr pr1.2).data.reverse := by
    rw [List.mem_reverse]
    exact pageStr_no_colon pr1.2
  have h2colon : ':' ∉ (pageStr pr2.2).data.reverse := by
    rw [List.mem_reverse]
    exact pageStr_no_colon pr2.2
  rcases colon_split _ h1colon _ _ _ h2colon hrev with ⟨hp, hdoc⟩
  have hpage : pr1.2 = pr2.2 := by
    apply pageStr_inj
    apply congrArg String.mk
    have := congrArg List.reverse hp
    simpa using this
  have hdocs : pr1.1 = pr2.1 := by
    have hde : pr1.1.data = pr2.1.data := by
      have := congrArg List.reverse hdoc
      simpa using this
    exact String.ext hde
  exact Prod.ext hdocs hpage

theorem citKeyC_mkCit (c : Chunk) : citKeyC (mkCit c) = citeKey c := rfl

theorem extractCitationsAux_cons (seen : List String) (c : Chunk) (rest : List Chunk) :
    extractCitationsAux seen (c :: rest) =
      if seen.contains (citeKey c) then extractCitationsAux seen rest
      else mkCit c :: extractCitationsAux (citeKey c :: seen) rest := rfl

theorem extractCitationsAux_spec :
    ∀ (chunks : List Chunk) (seen : List String),
      ((extractCitationsAux seen chunks).map citKeyC).Nodup ∧
      (∀ cit ∈ extractCitationsAux seen chunks,
        (∃ c ∈ chunks, cit = mkCit c) ∧ citKeyC cit ∉ seen) ∧
      (∀ c ∈ chunks, citeKey c ∈ seen ∨
        ∃ cit ∈ extractCitationsAux seen chunks, citKeyC cit = citeKey c) := by
  intro chunks
  induction chunks with
  | nil =>
    intro seen
    refine ⟨List.nodup_nil, ?_, ?_⟩
    · intro cit hc
      cases hc
    · intro c hc
      cases hc
  | cons c rest ih =>
    intro seen
    by_cases hseen : citeKey c ∈ seen
    · have hcon : seen.contains (citeKey c) = true := by simpa using hseen
      have haux : extractCitationsAux seen (c :: rest) = extractCitationsAux seen rest := by
        rw [extractCitationsAux_cons, if_pos hcon]
      rw [haux]
      refine ⟨(ih seen).1, ?_, ?_⟩
      · intro cit hc
        rcases (ih seen).2.1 cit hc with ⟨⟨c0, hc0, he⟩, hnot⟩
        exact ⟨⟨c0, List.mem_cons_of_mem c hc0, he⟩, hnot⟩
      · intro c0 hc0
        rcases List.mem_cons.mp hc0 with rfl | hmem
        · exact Or.inl hseen
        · exact (ih seen).2.2 c0 hmem
    · have hcon : ¬ seen.contains (citeKey c) = true := by simpa using hseen
      have haux : extractCitationsAux seen (c :: rest) =
          mkCit c :: extractCitationsAux (citeKey c :: seen) rest := by
        rw [extractCitationsAux_cons, if_neg hcon]
      rw [haux]
      have ih2 := ih (citeKey c :: seen)
      refine ⟨?_, ?_, ?_⟩
      · rw [List.map_cons, List.nodup_cons]
        refine ⟨?_, ih2.1⟩
        intro hmem
        rcases List.mem_map.mp hmem with ⟨cit, hcit, hkey⟩
        have := (ih2.2.1 cit hcit).2
        rw [citKeyC_mkCit] at hkey
        exact this (hkey ▸ List.mem_cons_self (citeKey c) seen)
      · intro cit hcit
        rcases List.mem_cons.mp hcit with rfl | hmem
        · refine ⟨⟨c, List.mem_cons_self c rest, rfl⟩, ?_⟩
          rw [citKeyC_mkCit]
          exact hseen
        · rcases ih2.2.1 cit hmem with ⟨⟨c0, hc0, he⟩, hnot⟩
          refine ⟨⟨c0, List.mem_cons_of_mem c hc0, he⟩, ?_⟩
          intro hin
          exact hnot (List.mem_cons_of_mem (citeKey c) hin)
      · intro c0 hc0
        rcases List.mem_cons.mp hc0 with rfl | hmem
        · exact Or.inr ⟨mkCit c0, List.mem_cons_self _ _, citKeyC_mkCit c0⟩
        · rcases ih2.2.2 c0 hmem with hin | ⟨cit, hcit, hkey⟩
          · rcases List.mem_cons.mp hin with heq | hin2
            · exact Or.inr ⟨mkCit c, List.mem_cons_self _ _, by rw [citKeyC_mkCit, heq]⟩
            · exact Or.inl hin2
          · exact Or.inr ⟨cit, List.mem_cons_of_mem _ hcit, hkey⟩

/-- C5: `extractCitations` yields exactly one citation per distinct
(document identifier, page number) pair occurring in the retrieved
passages: the citations' pairs are pairwise distinct, and a pair occurs
among the citations iff some retrieved passage carries it — two passages
sharing a page collapse to one entry. -/
theorem c5_citations_dedup_by_doc_page (chunks : List Chunk) :
    ((extractCitations chunks).map pairOfCit).Nodup ∧
    ∀ pr : String × Option Nat,
      pr ∈ (extractCitations chunks).map pairOfCit ↔ pr ∈ chunks.map pairOfChunk := by
  have hspec := extractCitationsAux_spec chunks []
  unfold extractCitations
  constructor
  · have hkeys := hspec.1
    have hmapeq : (extractCitationsAux [] chunks).map citKeyC =
        ((extractCitationsAux [] chunks).map pairOfCit).map keyOfPair := by
      rw [List.map_map]
      rfl
    rw [hmapeq] at hkeys
    exact List.Nodup.of_map keyOfPair hkeys
  · intro pr
    constructor
    · intro hpr
      rcases List.mem_map.mp hpr with ⟨cit, hcit, hpair⟩
      rcases (hspec.2.1 cit hcit).1 with ⟨c, hc, rfl⟩
      exact List.mem_map.mpr ⟨c, hc, hpair⟩
    · intro hpr
      rcases List.mem_map.mp hpr with ⟨c, hc, hpair⟩
      rcases hspec.2.2 c hc with hin | ⟨cit, hcit, hkey⟩
      · cases hin
      · have hkey2 : keyOfPair (pairOfCit cit) = keyOfPair (pairOfChunk c) := hkey
        have hpp : pairOfCit cit = pairOfChunk c := keyOfPair_inj _ _ hkey2
        exact List.mem_map.mpr ⟨cit, hcit, by rw [hpp, hpair]⟩
